import Mathlib

/-!
Verification of the convergence-learning-module simulation engine.

The TypeScript source is shallowly embedded: JS numbers become rationals,
the host transcendental functions (Math.cos, Math.sin, Math.exp) become
explicit function parameters collected in a RandOracle together with the
uniform random draws consumed by each algorithm, and code paths that would
raise a TypeError (indexing an empty array) return Option.none.
Algorithm tags are the runtime string values of the AlgorithmType enum.
-/

namespace CLM

/-- Embeds the Point interface: a position plus its cached cost value. -/
structure Point where
  x : ℚ
  y : ℚ
  value : ℚ
  deriving DecidableEq, Repr, Inhabited

/-- Embeds the Landscape interface fields used by the engine: the cost
function and the rectangular domain bounds. -/
structure Landscape where
  name : String
  func : ℚ → ℚ → ℚ
  minX : ℚ
  maxX : ℚ
  minY : ℚ
  maxY : ℚ

/-- The config record destructured by stepSimulation. -/
structure StepConfig where
  stepSize : ℚ
  temperature : ℚ
  mutationRate : ℚ
  deriving DecidableEq, Repr

/-- The uniform draws consumed when producing one genetic child:
two parent-selection draws, the mutation roll, and the two mutation
offset draws. -/
structure GeneticDraw where
  pick1 : ℚ
  pick2 : ℚ
  mutRoll : ℚ
  offX : ℚ
  offY : ℚ
  deriving DecidableEq, Repr

/-- Host functions and random streams consumed by stepSimulation:
mcos, msin, mexp stand for Math.cos, Math.sin, Math.exp; saDraw i is the
(angle, acceptance) pair drawn for the i-th annealing agent; genDraw i is
drawn for the i-th genetic child. -/
structure RandOracle where
  mcos : ℚ → ℚ
  msin : ℚ → ℚ
  mexp : ℚ → ℚ
  saDraw : ℕ → ℚ × ℚ
  genDraw : ℕ → GeneticDraw

/-- Source helper clamp: Math.min(Math.max(val, min), max). -/
def clamp (val mn mx : ℚ) : ℚ := min (max val mn) mx

/-- Source helper randomRange applied to a uniform draw r in [0,1):
r * (max - min) + min. -/
def randomRange (r mn mx : ℚ) : ℚ := r * (mx - mn) + mn

/-- The ascending-by-value stable sort used on populations,
[...agents].sort((a, b) => a.value - b.value). -/
def sortByValue (l : List Point) : List Point :=
  l.insertionSort (fun a b => a.value ≤ b.value)

/-- One candidate move of the hill-climbing loop body: position offset by
dir, clamped into bounds, then evaluated. -/
def hillCandidate (func : ℚ → ℚ → ℚ) (minX maxX minY maxY : ℚ)
    (agent : Point) (dir : ℚ × ℚ) : Point :=
  let nx := clamp (agent.x + dir.1) minX maxX
  let ny := clamp (agent.y + dir.2) minY maxY
  ⟨nx, ny, func nx ny⟩

/-- The HILL_CLIMBING / GREEDY per-agent step: fold the four direction
candidates over a running best initialized to the current agent, adopting
a candidate exactly when its value is strictly below the running best. -/
def hillClimbAgent (func : ℚ → ℚ → ℚ) (minX maxX minY maxY stepSize : ℚ)
    (agent : Point) : Point :=
  let directions : List (ℚ × ℚ) :=
    [(stepSize, 0), (-stepSize, 0), (0, stepSize), (0, -stepSize)]
  directions.foldl (fun bestMove dir =>
    let c := hillCandidate func minX maxX minY maxY agent dir
    if c.value < bestMove.value then c else bestMove) agent

/-- The SIMULATED_ANNEALING per-agent step: random neighbor at radial
distance stepSize, clamped; accepted when delta < 0 or the acceptance draw
is below mexp (-delta / currentTemp). -/
def annealAgent (mcos msin mexp : ℚ → ℚ) (func : ℚ → ℚ → ℚ)
    (minX maxX minY maxY stepSize temperature : ℚ) (iteration : ℕ)
    (agent : Point) (angle rand : ℚ) : Point :=
  let nx := clamp (agent.x + mcos angle * stepSize) minX maxX
  let ny := clamp (agent.y + msin angle * stepSize) minY maxY
  let nVal := func nx ny
  let currentTemp := temperature / (1 + (iteration : ℚ) * (1 / 10))
  let delta := nVal - agent.value
  if delta < 0 ∨ rand < mexp (-delta / currentTemp) then ⟨nx, ny, nVal⟩
  else agent

/-- The annealing branch maps annealAgent over the population, feeding each
agent its own draw pair. -/
def annealList (mcos msin mexp : ℚ → ℚ) (func : ℚ → ℚ → ℚ)
    (minX maxX minY maxY stepSize temperature : ℚ) (iteration : ℕ)
    (saDraw : ℕ → ℚ × ℚ) : List Point → ℕ → List Point
  | [], _ => []
  | a :: rest, i =>
      annealAgent mcos msin mexp func minX maxX minY maxY stepSize temperature
        iteration a (saDraw i).1 (saDraw i).2 ::
      annealList mcos msin mexp func minX maxX minY maxY stepSize temperature
        iteration saDraw rest (i + 1)

/-- The parent index drawn in the genetic branch:
Math.floor(r * (sorted.length / 2)) with real division by 2. -/
def geneticParentIdx (r : ℚ) (n : ℕ) : ℕ :=
  (⌊r * ((n : ℚ) / 2)⌋).toNat

/-- One genetic child: midpoint crossover of two drawn parents, optional
mutation by offsets in [-2*stepSize, 2*stepSize], clamp, evaluate. -/
def geneticChild (func : ℚ → ℚ → ℚ) (minX maxX minY maxY stepSize mutationRate : ℚ)
    (sorted : List Point) (d : GeneticDraw) : Point :=
  let p1 := sorted.getD (geneticParentIdx d.pick1 sorted.length) ⟨0, 0, 0⟩
  let p2 := sorted.getD (geneticParentIdx d.pick2 sorted.length) ⟨0, 0, 0⟩
  let childX := (p1.x + p2.x) / 2
  let childY := (p1.y + p2.y) / 2
  let childX1 := if d.mutRoll < mutationRate then
      childX + randomRange d.offX (-(stepSize * 2)) (stepSize * 2) else childX
  let childY1 := if d.mutRoll < mutationRate then
      childY + randomRange d.offY (-(stepSize * 2)) (stepSize * 2) else childY
  let cx := clamp childX1 minX maxX
  let cy := clamp childY1 minY maxY
  ⟨cx, cy, func cx cy⟩

/-- The GENETIC branch: sort ascending by value, keep the top
floor(n * 0.2) elites unchanged, refill with children until the output
population has the input length. -/
def geneticStep (func : ℚ → ℚ → ℚ) (minX maxX minY maxY stepSize mutationRate : ℚ)
    (agents : List Point) (genDraw : ℕ → GeneticDraw) : List Point :=
  let sorted := sortByValue agents
  let eliteCount := (⌊(agents.length : ℚ) * (2 / 10)⌋).toNat
  let elites := sorted.take eliteCount
  elites ++ (List.range (agents.length - eliteCount)).map
    (fun i => geneticChild func minX maxX minY maxY stepSize mutationRate
      sorted (genDraw i))

/-- Embeds stepSimulation from the optimizer module. The switch on the
AlgorithmType string enum has no default case, so an unknown tag yields the
still-empty newAgents array. -/
def stepSimulation (o : RandOracle) (algo : String) (agents : List Point)
    (landscape : Landscape) (iteration : ℕ) (config : StepConfig) : List Point :=
  if algo = "GREEDY" ∨ algo = "HILL_CLIMBING" then
    agents.map (hillClimbAgent landscape.func landscape.minX landscape.maxX
      landscape.minY landscape.maxY config.stepSize)
  else if algo = "SIMULATED_ANNEALING" then
    annealList o.mcos o.msin o.mexp landscape.func landscape.minX landscape.maxX
      landscape.minY landscape.maxY config.stepSize config.temperature iteration
      o.saDraw agents 0
  else if algo = "GENETIC" then
    geneticStep landscape.func landscape.minX landscape.maxX landscape.minY
      landscape.maxY config.stepSize config.mutationRate agents o.genDraw
  else []

/-- Embeds the SimulationState interface owned by the App driver. -/
structure SimulationState where
  running : Bool
  iteration : ℕ
  bestPoint : Option Point
  history : List (ℕ × ℚ)
  agents : List Point
  trails : List (List Point)
  deriving DecidableEq, Repr

/-- One trail update of the driver tick: when the length exceeds the limit
drop the oldest entry, then append the new position. -/
def updateTrail (limit : ℕ) (trail : List Point) (nxt : Point) : List Point :=
  if limit < trail.length then trail.drop 1 ++ [nxt] else trail ++ [nxt]

/-- The trail bookkeeping of the driver tick: genetic reinitializes on a
population-size mismatch and uses limit 50, the single-agent variants use
limit 100. -/
def driverTrails (algo : String) (prevTrails : List (List Point))
    (nextAgents : List Point) : List (List Point) :=
  if algo = "GENETIC" then
    if prevTrails.length ≠ nextAgents.length then nextAgents.map (fun a => [a])
    else List.zipWith (updateTrail 50) prevTrails nextAgents
  else List.zipWith (updateTrail 100) prevTrails nextAgents

/-- The resulting per-family trail length cap: limit + 1. -/
def trailCap (algo : String) : ℕ := if algo = "GENETIC" then 51 else 101

/-- The stats-and-fold part of the App tick callback, applied to the agents
returned by the stepper: update trails, take the best agent of this tick
from the ascending sort, fold it into bestPoint and history, advance the
iteration counter. Indexing an empty population is the none case. -/
def driverTick (algo : String) (prev : SimulationState)
    (nextAgents : List Point) : Option SimulationState :=
  match sortByValue nextAgents with
  | [] => none
  | currentBest :: _ =>
    let globalBest :=
      match prev.bestPoint with
      | none => currentBest
      | some bp => if currentBest.value < bp.value then currentBest else bp
    some { running := prev.running
           iteration := prev.iteration + 1
           bestPoint := some globalBest
           history := prev.history ++ [(prev.iteration + 1, currentBest.value)]
           agents := nextAgents
           trails := driverTrails algo prev.trails nextAgents }

/-- The full App tick callback: when the iteration budget is exhausted only
the running flag is cleared and the stepper is not consulted; otherwise the
stepper produces the next agents and driverTick folds them in. -/
def appTick (stepper : ℕ → List Point → List Point) (algo : String)
    (maxIterations : ℤ) (prev : SimulationState) : Option SimulationState :=
  if maxIterations ≤ (prev.iteration : ℤ) then some { prev with running := false }
  else driverTick algo prev (stepper prev.iteration prev.agents)

/-- Embeds the OptimizationConfig interface; optional fields are absent in
TS when undefined. -/
structure OptimizationConfig where
  algo : String
  learningRate : ℚ
  temperature : Option ℚ
  populationSize : Option ℤ
  mutationRate : Option ℚ
  maxIterations : ℤ
  deriving DecidableEq, Repr

/-- JS truthy-or fallback on an optional number: undefined and 0 both fall
back to the default. -/
def jsOrZ (v : Option ℤ) (d : ℤ) : ℤ :=
  match v with
  | none => d
  | some t => if t = 0 then d else t

/-- The agent count chosen by resetSimulation:
config.algo === GENETIC ? (config.populationSize || 20) : 1. -/
def resetCount (cfg : OptimizationConfig) : ℤ :=
  if cfg.algo = "GENETIC" then jsOrZ cfg.populationSize 20 else 1

/-- One loop body of the reset initialization: a position drawn uniformly
inside the domain, evaluated. -/
def resetAgent (land : Landscape) (draws : ℕ → ℚ × ℚ) (i : ℕ) : Point :=
  let x := (draws i).1 * (land.maxX - land.minX) + land.minX
  let y := (draws i).2 * (land.maxY - land.minY) + land.minY
  Point.mk x y (land.func x y)

/-- Embeds resetSimulation: draw the agents uniformly inside the domain,
sort ascending, seed bestPoint, history and trails from the sorted array.
Reading agents[0] of an empty population is the none case. No field of the
configuration is validated. -/
def resetSimulation (cfg : OptimizationConfig) (land : Landscape)
    (draws : ℕ → ℚ × ℚ) : Option SimulationState :=
  match sortByValue ((List.range (resetCount cfg).toNat).map
      (resetAgent land draws)) with
  | [] => none
  | best :: rest =>
    some { running := false
           iteration := 0
           bestPoint := some best
           history := [(0, best.value)]
           agents := best :: rest
           trails := (best :: rest).map (fun a => [a]) }

/-- Embeds toggleSimulation: flip the running flag. -/
def toggleSimulation (s : SimulationState) : SimulationState :=
  { s with running := !s.running }

/-- The bounds predicate of the invariants: the position lies inside the
closed domain rectangle. -/
def inBounds (land : Landscape) (p : Point) : Prop :=
  land.minX ≤ p.x ∧ p.x ≤ land.maxX ∧ land.minY ≤ p.y ∧ p.y ≤ land.maxY

instance (land : Landscape) (p : Point) : Decidable (inBounds land p) := by
  unfold inBounds; infer_instance

/-- The convex bowl landscape f(x, y) = x^2 + y^2 on [-5, 5]^2. -/
def bowl : Landscape :=
  { name := "Bowl", func := fun x y => x ^ 2 + y ^ 2
    minX := -5, maxX := 5, minY := -5, maxY := 5 }

/-- A fixed oracle for concrete evaluations. -/
def oracle0 : RandOracle :=
  { mcos := fun _ => 1, msin := fun _ => 0, mexp := fun _ => 0
    saDraw := fun _ => (0, 0), genDraw := fun _ => ⟨0, 0, 1, 0, 0⟩ }

/-! ## Helper lemmas -/

lemma sortByValue_perm (l : List Point) : (sortByValue l).Perm l :=
  List.perm_insertionSort _ l

lemma mem_sortByValue {p : Point} {l : List Point} :
    p ∈ sortByValue l ↔ p ∈ l :=
  (sortByValue_perm l).mem_iff

lemma length_sortByValue (l : List Point) :
    (sortByValue l).length = l.length :=
  (sortByValue_perm l).length_eq

lemma driverTick_some {algo : String} {prev : SimulationState}
    {next : List Point} {s' : SimulationState}
    (h : driverTick algo prev next = some s') :
    ∃ cb rest, sortByValue next = cb :: rest ∧
      s' = { running := prev.running
             iteration := prev.iteration + 1
             bestPoint := some (match prev.bestPoint with
               | none => cb
               | some bp => if cb.value < bp.value then cb else bp)
             history := prev.history ++ [(prev.iteration + 1, cb.value)]
             agents := next
             trails := driverTrails algo prev.trails next } := by
  unfold driverTick at h
  rcases hs : sortByValue next with _ | ⟨cb, rest⟩ <;> rw [hs] at h
  · cases h
  · exact ⟨cb, rest, rfl, (Option.some.inj h).symm⟩

/-! ## C1 — global best is monotonically non-increasing across ticks -/

/-- C1: at each driver tick, the stored bestPoint is replaced by the best
agent of the tick only when that agent has strictly smaller value, and is
otherwise retained unchanged, so its value never increases. -/
theorem best_point_monotone (algo : String) (prev : SimulationState)
    (next : List Point) (s' : SimulationState) (bp : Point)
    (h : driverTick algo prev next = some s')
    (hbp : prev.bestPoint = some bp) :
    ∃ bp', s'.bestPoint = some bp' ∧ bp'.value ≤ bp.value ∧
      (bp' = bp ∨ bp'.value < bp.value) := by
  obtain ⟨cb, rest, hs, rfl⟩ := driverTick_some h
  simp only [hbp]
  by_cases hlt : cb.value < bp.value
  · exact ⟨cb, by simp [hlt], le_of_lt hlt, Or.inr hlt⟩
  · exact ⟨bp, by simp [hlt], le_refl _, Or.inl rfl⟩

/-- C1 witness: a concrete tick where the new best strictly improves. -/
theorem best_point_monotone_witness :
    ∃ bp', (SimulationState.mk true 1 (some ⟨1, 1, 3⟩) [(1, 3)] [⟨1, 1, 3⟩]
        [[⟨0, 0, 5⟩, ⟨1, 1, 3⟩]]).bestPoint = some bp' ∧
      bp'.value ≤ (Point.mk 0 0 5).value ∧
      (bp' = ⟨0, 0, 5⟩ ∨ bp'.value < (Point.mk 0 0 5).value) :=
  best_point_monotone "HILL_CLIMBING"
    ⟨true, 0, some ⟨0, 0, 5⟩, [], [⟨0, 0, 5⟩], [[⟨0, 0, 5⟩]]⟩
    [⟨1, 1, 3⟩] _ ⟨0, 0, 5⟩ (by decide) rfl

/-! ## C8 — iteration budget terminates the run -/

/-- C8: a tick fired with the budget exhausted only clears the running
flag and does not consult the stepper; below the budget the tick advances
the iteration by one, so the counter never exceeds the budget and the run
idles exactly when the counter reaches it. -/
theorem tick_budget (algo : String) (N : ℤ) (prev : SimulationState) :
    (∀ stepper : ℕ → List Point → List Point,
        N ≤ (prev.iteration : ℤ) →
        appTick stepper algo N prev = some { prev with running := false })
    ∧ (∀ (stepper : ℕ → List Point → List Point) (s' : SimulationState),
        (prev.iteration : ℤ) ≤ N → appTick stepper algo N prev = some s' →
        (s'.iteration : ℤ) ≤ N)
    ∧ (∀ (stepper : ℕ → List Point → List Point) (s' : SimulationState),
        (prev.iteration : ℤ) < N → appTick stepper algo N prev = some s' →
        s'.iteration = prev.iteration + 1 ∧ s'.running = prev.running ∧
        s'.agents = stepper prev.iteration prev.agents) := by
  refine ⟨fun stepper hN => ?_, fun stepper s' hle h => ?_,
    fun stepper s' hlt h => ?_⟩
  · simp [appTick, hN]
  · unfold appTick at h
    by_cases hN : N ≤ (prev.iteration : ℤ)
    · rw [if_pos hN] at h
      cases Option.some.inj h
      exact hle
    · rw [if_neg hN] at h
      obtain ⟨cb, rest, hs, rfl⟩ := driverTick_some h
      push_cast
      omega
  · unfold appTick at h
    rw [if_neg (not_le.mpr hlt)] at h
    obtain ⟨cb, rest, hs, rfl⟩ := driverTick_some h
    exact ⟨rfl, rfl, rfl⟩

/-- C8 witness: with budget 0 and counter 0, the tick only stops the run. -/
theorem tick_budget_witness :
    appTick (fun _ l => l) "HILL_CLIMBING" 0
        ⟨true, 0, none, [], [], []⟩ =
      some ⟨false, 0, none, [], [], []⟩ :=
  (tick_budget "HILL_CLIMBING" 0 ⟨true, 0, none, [], [], []⟩).1
    (fun _ l => l) (by decide)

/-! ## C10 — unknown algorithm tag yields the empty population -/

/-- C10: the stepper switch has no default case, so an algorithm tag
outside the four known variants returns the empty sequence: the output
length cannot match a nonempty input and there is no first agent. -/
theorem unknown_algo_empty (o : RandOracle) (algo : String)
    (h1 : algo ≠ "GREEDY") (h2 : algo ≠ "HILL_CLIMBING")
    (h3 : algo ≠ "SIMULATED_ANNEALING") (h4 : algo ≠ "GENETIC")
    (agents : List Point) (land : Landscape) (iteration : ℕ)
    (config : StepConfig) :
    stepSimulation o algo agents land iteration config = []
    ∧ (stepSimulation o algo agents land iteration config).head? = none
    ∧ (agents ≠ [] →
        (stepSimulation o algo agents land iteration config).length ≠
          agents.length) := by
  have he : stepSimulation o algo agents land iteration config = [] := by
    simp [stepSimulation, h1, h2, h3, h4]
  refine ⟨he, by simp [he], fun hne => ?_⟩
  rw [he]
  simp only [List.length_nil]
  intro h0
  exact hne (List.eq_nil_of_length_eq_zero h0.symm)

/-- C10 witness: a concrete unknown tag on a one-agent population. -/
theorem unknown_algo_empty_witness :
    stepSimulation oracle0 "FOO" [⟨1, 1, 2⟩] bowl 0 ⟨1, 1, 1⟩ = []
    ∧ (stepSimulation oracle0 "FOO" [⟨1, 1, 2⟩] bowl 0 ⟨1, 1, 1⟩).head? = none
    ∧ ([(⟨1, 1, 2⟩ : Point)] ≠ [] →
        (stepSimulation oracle0 "FOO" [⟨1, 1, 2⟩] bowl 0 ⟨1, 1, 1⟩).length ≠
          [(⟨1, 1, 2⟩ : Point)].length) :=
  unknown_algo_empty oracle0 "FOO" (by decide) (by decide) (by decide)
    (by decide) [⟨1, 1, 2⟩] bowl 0 ⟨1, 1, 1⟩

/-! ## C7 — trails append the new position under a sliding-window cap -/

lemma zipWith_getD {α β γ : Type} (f : α → β → γ) (da : α) (db : β) (dg : γ) :
    ∀ (l₁ : List α) (l₂ : List β) (i : ℕ), i < l₁.length → i < l₂.length →
      (List.zipWith f l₁ l₂).getD i dg = f (l₁.getD i da) (l₂.getD i db)
  | [], _, i, h1, _ => by simp at h1
  | _ :: _, [], i, _, h2 => by simp at h2
  | a :: l₁, b :: l₂, 0, _, _ => by simp
  | a :: l₁, b :: l₂, (i + 1), h1, h2 => by
      simp only [List.zipWith_cons_cons, List.getD_cons_succ]
      exact zipWith_getD f da db dg l₁ l₂ i (by simpa using h1)
        (by simpa using h2)

lemma updateTrail_spec (limit : ℕ) (t : List Point) (nx : Point) :
    (updateTrail limit t nx).getLast? = some nx
    ∧ (t.length ≤ limit + 1 → (updateTrail limit t nx).length ≤ limit + 1)
    ∧ (t.length = limit + 1 →
        updateTrail limit t nx = t.drop 1 ++ [nx]
        ∧ (updateTrail limit t nx).length = limit + 1) := by
  unfold updateTrail
  split_ifs with hc
  · refine ⟨List.getLast?_concat _, fun hle => ?_, fun heq => ⟨rfl, ?_⟩⟩
    · simp only [List.length_append, List.length_drop, List.length_singleton]
      omega
    · simp only [List.length_append, List.length_drop, List.length_singleton]
      omega
  · refine ⟨List.getLast?_concat _, fun hle => ?_, fun heq => ?_⟩
    · simp only [List.length_append, List.length_singleton]
      omega
    · exact absurd heq (by omega)

/-- C7: every driver tick appends each agent slot's new position as the
last element of its trail; a trail at the per-family cap (51 for genetic,
101 otherwise) loses exactly its oldest entry first and stays at the cap,
and no trail below the cap ever grows past it. -/
theorem trail_cap_invariant (algo : String) (prev : SimulationState)
    (next : List Point) (s' : SimulationState)
    (h : driverTick algo prev next = some s')
    (hlen : prev.trails.length = next.length) (i : ℕ) (hi : i < next.length) :
    (s'.trails.getD i []).getLast? = some (next.getD i ⟨0, 0, 0⟩)
    ∧ ((prev.trails.getD i []).length ≤ trailCap algo →
        (s'.trails.getD i []).length ≤ trailCap algo)
    ∧ ((prev.trails.getD i []).length = trailCap algo →
        s'.trails.getD i [] =
          (prev.trails.getD i []).drop 1 ++ [next.getD i ⟨0, 0, 0⟩]
        ∧ (s'.trails.getD i []).length = trailCap algo) := by
  obtain ⟨cb, rest, hs, heq⟩ := driverTick_some h
  have htrails : s'.trails = driverTrails algo prev.trails next := by
    rw [heq]
  have htr : driverTrails algo prev.trails next =
      List.zipWith (updateTrail (if algo = "GENETIC" then 50 else 100))
        prev.trails next := by
    unfold driverTrails
    split_ifs with hg hne
    · exact absurd hlen hne
    · rfl
    · rfl
  have hcap : trailCap algo = (if algo = "GENETIC" then 50 else 100) + 1 := by
    unfold trailCap
    split_ifs <;> rfl
  have hgd : (driverTrails algo prev.trails next).getD i [] =
      updateTrail (if algo = "GENETIC" then 50 else 100)
        (prev.trails.getD i []) (next.getD i ⟨0, 0, 0⟩) := by
    rw [htr]
    exact zipWith_getD _ [] ⟨0, 0, 0⟩ [] prev.trails next i (by omega) hi
  rw [htrails, hgd, hcap]
  exact updateTrail_spec _ _ _

/-- C7 witness: a concrete single-agent tick appends to the trail. -/
theorem trail_cap_invariant_witness :
    ((SimulationState.mk true 1 (some ⟨1, 1, 3⟩) [(1, 3)] [⟨1, 1, 3⟩]
          [[⟨0, 0, 5⟩, ⟨1, 1, 3⟩]]).trails.getD 0 []).getLast? =
        some ([(⟨1, 1, 3⟩ : Point)].getD 0 ⟨0, 0, 0⟩)
    ∧ (([[(⟨0, 0, 5⟩ : Point)]].getD 0 []).length ≤ trailCap "HILL_CLIMBING" →
        ((SimulationState.mk true 1 (some ⟨1, 1, 3⟩) [(1, 3)] [⟨1, 1, 3⟩]
            [[⟨0, 0, 5⟩, ⟨1, 1, 3⟩]]).trails.getD 0 []).length ≤
          trailCap "HILL_CLIMBING")
    ∧ (([[(⟨0, 0, 5⟩ : Point)]].getD 0 []).length = trailCap "HILL_CLIMBING" →
        (SimulationState.mk true 1 (some ⟨1, 1, 3⟩) [(1, 3)] [⟨1, 1, 3⟩]
            [[⟨0, 0, 5⟩, ⟨1, 1, 3⟩]]).trails.getD 0 [] =
          ([[(⟨0, 0, 5⟩ : Point)]].getD 0 []).drop 1 ++
            [[(⟨1, 1, 3⟩ : Point)].getD 0 ⟨0, 0, 0⟩]
        ∧ ((SimulationState.mk true 1 (some ⟨1, 1, 3⟩) [(1, 3)] [⟨1, 1, 3⟩]
              [[⟨0, 0, 5⟩, ⟨1, 1, 3⟩]]).trails.getD 0 []).length =
            trailCap "HILL_CLIMBING") :=
  trail_cap_invariant "HILL_CLIMBING"
    ⟨true, 0, some ⟨0, 0, 5⟩, [], [⟨0, 0, 5⟩], [[⟨0, 0, 5⟩]]⟩
    [⟨1, 1, 3⟩] _ (by decide) (by decide) 0 (by decide)

/-! ## C3 — bounds invariant: clamping keeps every agent in the domain -/

lemma clamp_bounds {mn mx : ℚ} (v : ℚ) (h : mn ≤ mx) :
    mn ≤ clamp v mn mx ∧ clamp v mn mx ≤ mx :=
  ⟨le_min (le_trans (le_max_right v mn) (le_refl _)) h |>.trans_eq rfl,
    min_le_right _ _⟩

lemma inBounds_order {land : Landscape} {p : Point} (h : inBounds land p) :
    land.minX ≤ land.maxX ∧ land.minY ≤ land.maxY :=
  ⟨le_trans h.1 h.2.1, le_trans h.2.2.1 h.2.2.2⟩

lemma hillCandidate_inBounds (land : Landscape) (agent : Point) (dir : ℚ × ℚ)
    (hx : land.minX ≤ land.maxX) (hy : land.minY ≤ land.maxY) :
    inBounds land
      (hillCandidate land.func land.minX land.maxX land.minY land.maxY
        agent dir) := by
  unfold hillCandidate inBounds
  exact ⟨(clamp_bounds _ hx).1, (clamp_bounds _ hx).2,
    (clamp_bounds _ hy).1, (clamp_bounds _ hy).2⟩

lemma hillClimbAgent_inBounds (land : Landscape) (s : ℚ) {agent : Point}
    (h : inBounds land agent) :
    inBounds land
      (hillClimbAgent land.func land.minX land.maxX land.minY land.maxY
        s agent) := by
  obtain ⟨hx, hy⟩ := inBounds_order h
  unfold hillClimbAgent
  have key : ∀ (dirs : List (ℚ × ℚ)) (b : Point), inBounds land b →
      inBounds land (dirs.foldl (fun bestMove dir =>
        let c := hillCandidate land.func land.minX land.maxX land.minY
          land.maxY agent dir
        if c.value < bestMove.value then c else bestMove) b) := by
    intro dirs
    induction dirs with
    | nil => exact fun b hb => hb
    | cons d ds ih =>
        intro b hb
        rw [List.foldl_cons]
        apply ih
        dsimp only
        split_ifs with hc
        · exact hillCandidate_inBounds land agent d hx hy
        · exact hb
  exact key _ agent h

lemma annealAgent_inBounds (land : Landscape)
    (mcos msin mexp : ℚ → ℚ) (s temp : ℚ) (it : ℕ) {agent : Point}
    (angle rand : ℚ) (h : inBounds land agent) :
    inBounds land
      (annealAgent mcos msin mexp land.func land.minX land.maxX land.minY
        land.maxY s temp it agent angle rand) := by
  obtain ⟨hx, hy⟩ := inBounds_order h
  unfold annealAgent
  dsimp only
  split_ifs with hc
  · exact ⟨(clamp_bounds _ hx).1, (clamp_bounds _ hx).2,
      (clamp_bounds _ hy).1, (clamp_bounds _ hy).2⟩
  · exact h

lemma annealList_inBounds (land : Landscape)
    (mcos msin mexp : ℚ → ℚ) (s temp : ℚ) (it : ℕ) (saDraw : ℕ → ℚ × ℚ) :
    ∀ (l : List Point) (i : ℕ), (∀ a ∈ l, inBounds land a) →
      ∀ b ∈ annealList mcos msin mexp land.func land.minX land.maxX land.minY
          land.maxY s temp it saDraw l i, inBounds land b
  | [], _, _, b, hb => by simp [annealList] at hb
  | a :: rest, i, h, b, hb => by
      rw [annealList] at hb
      rcases List.mem_cons.mp hb with rfl | hb
      · exact annealAgent_inBounds land mcos msin mexp s temp it _ _
          (h a (List.mem_cons_self a rest))
      · exact annealList_inBounds land mcos msin mexp s temp it saDraw rest
          (i + 1) (fun x hx => h x (List.mem_cons_of_mem a hx)) b hb

lemma geneticChild_inBounds (land : Landscape) (s mrate : ℚ)
    (sorted : List Point) (d : GeneticDraw)
    (hx : land.minX ≤ land.maxX) (hy : land.minY ≤ land.maxY) :
    inBounds land
      (geneticChild land.func land.minX land.maxX land.minY land.maxY
        s mrate sorted d) := by
  unfold geneticChild inBounds
  exact ⟨(clamp_bounds _ hx).1, (clamp_bounds _ hx).2,
    (clamp_bounds _ hy).1, (clamp_bounds _ hy).2⟩

lemma geneticStep_inBounds (land : Landscape) (s mrate : ℚ)
    (agents : List Point) (genDraw : ℕ → GeneticDraw)
    (h : ∀ a ∈ agents, inBounds land a) :
    ∀ b ∈ geneticStep land.func land.minX land.maxX land.minY land.maxY
        s mrate agents genDraw, inBounds land b := by
  intro b hb
  unfold geneticStep at hb
  rw [List.mem_append] at hb
  rcases hb with hb | hb
  · exact h b (mem_sortByValue.mp (List.mem_of_mem_take hb))
  · rw [List.mem_map] at hb
    obtain ⟨j, hj, rfl⟩ := hb
    rw [List.mem_range] at hj
    have hne : agents ≠ [] := by
      intro he
      rw [he] at hj
      simp at hj
    obtain ⟨a, ha⟩ := List.exists_mem_of_ne_nil agents hne
    obtain ⟨hx, hy⟩ := inBounds_order (h a ha)
    exact geneticChild_inBounds land s mrate _ _ hx hy

/-- C3: any tick of any algorithm maps a population inside the domain
rectangle to a population inside the domain rectangle. -/
theorem step_preserves_bounds (o : RandOracle) (algo : String)
    (agents : List Point) (land : Landscape) (iteration : ℕ)
    (config : StepConfig) (h : ∀ a ∈ agents, inBounds land a) :
    ∀ b ∈ stepSimulation o algo agents land iteration config,
      inBounds land b := by
  intro b hb
  unfold stepSimulation at hb
  split_ifs at hb with h1 h2 h3
  · rw [List.mem_map] at hb
    obtain ⟨a, ha, rfl⟩ := hb
    exact hillClimbAgent_inBounds land config.stepSize (h a ha)
  · exact annealList_inBounds land o.mcos o.msin o.mexp config.stepSize
      config.temperature iteration o.saDraw agents 0 h b hb
  · exact geneticStep_inBounds land config.stepSize config.mutationRate
      agents o.genDraw h b hb
  · simp at hb

/-- C3 witness: the greedy step from the in-bounds agent (1, 1) stays in
the bowl domain. -/
theorem step_preserves_bounds_witness :
    inBounds bowl ⟨9 / 10, 1, 181 / 100⟩ :=
  step_preserves_bounds oracle0 "GREEDY" [⟨1, 1, 2⟩] bowl 0
    ⟨1 / 10, 100, 1 / 10⟩ (by decide) ⟨9 / 10, 1, 181 / 100⟩
    (by rw [show stepSimulation oracle0 "GREEDY" [⟨1, 1, 2⟩] bowl 0
            ⟨1 / 10, 100, 1 / 10⟩ = [⟨9 / 10, 1, 181 / 100⟩] by
          norm_num [stepSimulation, hillClimbAgent, hillCandidate, clamp,
            bowl, oracle0]]
        exact List.mem_singleton.mpr rfl)

/-! ## C2 — hill-climbing adopts the first strict improvement in order -/

lemma hillClimbAgent_eq (func : ℚ → ℚ → ℚ) (minX maxX minY maxY s : ℚ)
    (agent : Point) :
    hillClimbAgent func minX maxX minY maxY s agent =
      (let c1 := hillCandidate func minX maxX minY maxY agent (s, 0)
       let c2 := hillCandidate func minX maxX minY maxY agent (-s, 0)
       let c3 := hillCandidate func minX maxX minY maxY agent (0, s)
       let c4 := hillCandidate func minX maxX minY maxY agent (0, -s)
       let b1 := if c1.value < agent.value then c1 else agent
       let b2 := if c2.value < b1.value then c2 else b1
       let b3 := if c3.value < b2.value then c3 else b2
       if c4.value < b3.value then c4 else b3) := rfl

lemma fold_pick_spec (agent c1 c2 c3 c4 : Point) :
    (let b1 := if c1.value < agent.value then c1 else agent
     let b2 := if c2.value < b1.value then c2 else b1
     let b3 := if c3.value < b2.value then c3 else b2
     let b4 := if c4.value < b3.value then c4 else b3
     ((¬ c1.value < agent.value ∧ ¬ c2.value < agent.value ∧
        ¬ c3.value < agent.value ∧ ¬ c4.value < agent.value) → b4 = agent)
     ∧ (b4 = agent ∨ b4 ∈ [c1, c2, c3, c4])
     ∧ (b4 = agent ∨ b4.value < agent.value)
     ∧ b4.value ≤ agent.value ∧ b4.value ≤ c1.value ∧ b4.value ≤ c2.value ∧
        b4.value ≤ c3.value ∧ b4.value ≤ c4.value) := by
  dsimp only
  split_ifs <;>
    refine ⟨fun hno => ?_, ?_, ?_, ?_, ?_, ?_, ?_, ?_⟩ <;>
    first
      | rfl
      | simp
      | linarith
      | (exact Or.inr (by linarith))

/-- C2: one hill-climbing (or greedy) step folds the four clamped
axis-aligned candidates, in the order +x, −x, +y, −y, over a running best
initialized to the current agent, adopting a candidate only on strict
improvement over the running best; if no candidate strictly improves the
agent is unchanged, and on the bowl landscape the agent at (1, 1) with
stepSize 1/10 moves to (9/10, 1) with value 181/100. -/
theorem hill_climb_first_improvement :
    (∀ (func : ℚ → ℚ → ℚ) (minX maxX minY maxY s : ℚ) (agent : Point),
      ((¬ (hillCandidate func minX maxX minY maxY agent (s, 0)).value <
            agent.value ∧
        ¬ (hillCandidate func minX maxX minY maxY agent (-s, 0)).value <
            agent.value ∧
        ¬ (hillCandidate func minX maxX minY maxY agent (0, s)).value <
            agent.value ∧
        ¬ (hillCandidate func minX maxX minY maxY agent (0, -s)).value <
            agent.value) →
        hillClimbAgent func minX maxX minY maxY s agent = agent)
      ∧ (hillClimbAgent func minX maxX minY maxY s agent = agent ∨
          hillClimbAgent func minX maxX minY maxY s agent ∈
            [hillCandidate func minX maxX minY maxY agent (s, 0),
             hillCandidate func minX maxX minY maxY agent (-s, 0),
             hillCandidate func minX maxX minY maxY agent (0, s),
             hillCandidate func minX maxX minY maxY agent (0, -s)])
      ∧ (hillClimbAgent func minX maxX minY maxY s agent = agent ∨
          (hillClimbAgent func minX maxX minY maxY s agent).value <
            agent.value)
      ∧ (hillClimbAgent func minX maxX minY maxY s agent).value ≤ agent.value
      ∧ (hillClimbAgent func minX maxX minY maxY s agent).value ≤
          (hillCandidate func minX maxX minY maxY agent (s, 0)).value
      ∧ (hillClimbAgent func minX maxX minY maxY s agent).value ≤
          (hillCandidate func minX maxX minY maxY agent (-s, 0)).value
      ∧ (hillClimbAgent func minX maxX minY maxY s agent).value ≤
          (hillCandidate func minX maxX minY maxY agent (0, s)).value
      ∧ (hillClimbAgent func minX maxX minY maxY s agent).value ≤
          (hillCandidate func minX maxX minY maxY agent (0, -s)).value)
    ∧ hillClimbAgent (fun x y => x ^ 2 + y ^ 2) (-5) 5 (-5) 5 (1 / 10)
        ⟨1, 1, 2⟩ = ⟨9 / 10, 1, 181 / 100⟩ := by
  constructor
  · intro func minX maxX minY maxY s agent
    rw [hillClimbAgent_eq]
    exact fold_pick_spec agent
      (hillCandidate func minX maxX minY maxY agent (s, 0))
      (hillCandidate func minX maxX minY maxY agent (-s, 0))
      (hillCandidate func minX maxX minY maxY agent (0, s))
      (hillCandidate func minX maxX minY maxY agent (0, -s))
  · norm_num [hillClimbAgent, hillCandidate, clamp]

/-- C2 witness: at the bowl minimum no candidate strictly improves, so the
agent does not move. -/
theorem hill_climb_first_improvement_witness :
    hillClimbAgent (fun x y => x ^ 2 + y ^ 2) (-5) 5 (-5) 5 (1 / 10)
      ⟨0, 0, 0⟩ = ⟨0, 0, 0⟩ := by
  refine (hill_climb_first_improvement.1 (fun x y => x ^ 2 + y ^ 2)
    (-5) 5 (-5) 5 (1 / 10) ⟨0, 0, 0⟩).1 ?_
  refine ⟨?_, ?_, ?_, ?_⟩ <;> norm_num [hillCandidate, clamp]

/-! ## C4 — annealing acceptance is exactly the Metropolis criterion -/

/-- C4: a simulated-annealing step on a single agent proposes the clamped
neighbor at radial distance stepSize along the drawn angle, and returns it
exactly when delta < 0 or the acceptance draw is below
mexp (-delta / T) with T = temperature / (1 + 0.1 * iteration); otherwise
the agent is returned unchanged. -/
theorem anneal_metropolis (o : RandOracle) (land : Landscape)
    (stepSize temperature mutationRate : ℚ) (iteration : ℕ) (agent : Point) :
    stepSimulation o "SIMULATED_ANNEALING" [agent] land iteration
        ⟨stepSize, temperature, mutationRate⟩ =
      [let nx := clamp (agent.x + o.mcos (o.saDraw 0).1 * stepSize)
          land.minX land.maxX
       let ny := clamp (agent.y + o.msin (o.saDraw 0).1 * stepSize)
          land.minY land.maxY
       let nVal := land.func nx ny
       let T := temperature / (1 + (iteration : ℚ) / 10)
       let delta := nVal - agent.value
       if delta < 0 ∨ (o.saDraw 0).2 < o.mexp (-delta / T) then ⟨nx, ny, nVal⟩
       else agent] := by
  have hT : (1 : ℚ) + (iteration : ℚ) * (1 / 10) = 1 + (iteration : ℚ) / 10 :=
    by ring
  have h1 : ¬ (("SIMULATED_ANNEALING" : String) = "GREEDY" ∨
      ("SIMULATED_ANNEALING" : String) = "HILL_CLIMBING") := by decide
  unfold stepSimulation
  rw [if_neg h1, if_pos rfl]
  simp only [annealList, annealAgent, hT]

/-! ## C5 — genetic step: exact length and verbatim elite carry-over -/

lemma eliteCount_le (n : ℕ) : (⌊(n : ℚ) * (2 / 10)⌋).toNat ≤ n := by
  have h0 : (0 : ℚ) ≤ (n : ℚ) := Nat.cast_nonneg n
  have h1 : (n : ℚ) * (2 / 10) ≤ (n : ℚ) := by nlinarith
  have h2 := Int.floor_le_floor h1
  rw [Int.floor_natCast] at h2
  omega

/-- C5: a genetic step on a population of size n ≥ 1 returns exactly n
agents, and its first floor(n * 0.2) elements are the first
floor(n * 0.2) elements of the value-ascending-sorted input, carried over
verbatim. -/
theorem genetic_elitism (o : RandOracle) (agents : List Point)
    (land : Landscape) (iteration : ℕ) (config : StepConfig)
    (_h : 1 ≤ agents.length) :
    (stepSimulation o "GENETIC" agents land iteration config).length =
      agents.length
    ∧ (stepSimulation o "GENETIC" agents land iteration config).take
        ((⌊(agents.length : ℚ) * (2 / 10)⌋).toNat) =
      (sortByValue agents).take ((⌊(agents.length : ℚ) * (2 / 10)⌋).toNat) := by
  have heq : stepSimulation o "GENETIC" agents land iteration config =
      geneticStep land.func land.minX land.maxX land.minY land.maxY
        config.stepSize config.mutationRate agents o.genDraw := by
    simp [stepSimulation]
  rw [heq]
  unfold geneticStep
  dsimp only
  have hle := eliteCount_le agents.length
  have hlen : ((sortByValue agents).take
      ((⌊(agents.length : ℚ) * (2 / 10)⌋).toNat)).length =
      (⌊(agents.length : ℚ) * (2 / 10)⌋).toNat := by
    rw [List.length_take, length_sortByValue]
    omega
  constructor
  · rw [List.length_append, List.length_map, List.length_range, hlen]
    omega
  · exact List.take_left' hlen

/-- C5 witness: a concrete five-agent population keeps its single elite. -/
theorem genetic_elitism_witness :
    (stepSimulation oracle0 "GENETIC"
        [⟨1, 1, 2⟩, ⟨0, 0, 0⟩, ⟨2, 2, 8⟩, ⟨3, 3, 18⟩, ⟨4, 4, 32⟩] bowl 0
        ⟨1 / 10, 100, 0⟩).length =
      ([⟨1, 1, 2⟩, ⟨0, 0, 0⟩, ⟨2, 2, 8⟩, ⟨3, 3, 18⟩,
        (⟨4, 4, 32⟩ : Point)]).length
    ∧ (stepSimulation oracle0 "GENETIC"
        [⟨1, 1, 2⟩, ⟨0, 0, 0⟩, ⟨2, 2, 8⟩, ⟨3, 3, 18⟩, ⟨4, 4, 32⟩] bowl 0
        ⟨1 / 10, 100, 0⟩).take
        ((⌊(([⟨1, 1, 2⟩, ⟨0, 0, 0⟩, ⟨2, 2, 8⟩, ⟨3, 3, 18⟩,
            (⟨4, 4, 32⟩ : Point)]).length : ℚ) * (2 / 10)⌋).toNat) =
      (sortByValue [⟨1, 1, 2⟩, ⟨0, 0, 0⟩, ⟨2, 2, 8⟩, ⟨3, 3, 18⟩,
        ⟨4, 4, 32⟩]).take
        ((⌊(([⟨1, 1, 2⟩, ⟨0, 0, 0⟩, ⟨2, 2, 8⟩, ⟨3, 3, 18⟩,
            (⟨4, 4, 32⟩ : Point)]).length : ℚ) * (2 / 10)⌋).toNat) :=
  genetic_elitism oracle0
    [⟨1, 1, 2⟩, ⟨0, 0, 0⟩, ⟨2, 2, 8⟩, ⟨3, 3, 18⟩, ⟨4, 4, 32⟩] bowl 0
    ⟨1 / 10, 100, 0⟩ (by decide)

/-! ## C6 — the genetic parent pool is not exactly the better half -/

/-- C6 counterexample: with population size 3 the claimed pool is index 0
only (floor(3/2) − 1 = 0), but the draw r = 7/10 ∈ [0,1) selects parent
index 1 = floor(3/2); with both picks at 7/10 and mutation off, every
child of a concrete sorted population is the midpoint of the agent at
index 1, not of the agent at index 0. -/
theorem genetic_parent_pool_counterexample :
    (0 : ℚ) ≤ 7 / 10 ∧ (7 : ℚ) / 10 < 1
    ∧ geneticParentIdx (7 / 10) 3 = 1
    ∧ 1 ≤ 3 / 2
    ∧ ¬ geneticParentIdx (7 / 10) 3 < 3 / 2
    ∧ stepSimulation
        { oracle0 with genDraw := fun _ => ⟨7 / 10, 7 / 10, 1, 0, 0⟩ }
        "GENETIC" [⟨0, 0, 0⟩, ⟨2, 2, 8⟩, ⟨4, 4, 32⟩] bowl 0
        ⟨1 / 10, 100, 0⟩ =
      [⟨2, 2, 8⟩, ⟨2, 2, 8⟩, ⟨2, 2, 8⟩] := by
  have hidx : geneticParentIdx (7 / 10) 3 = 1 := by
    unfold geneticParentIdx
    norm_num
  refine ⟨by norm_num, by norm_num, hidx, by norm_num, by rw [hidx]; norm_num, ?_⟩
  have heq : stepSimulation
      { oracle0 with genDraw := fun _ => ⟨7 / 10, 7 / 10, 1, 0, 0⟩ }
      "GENETIC" [⟨0, 0, 0⟩, ⟨2, 2, 8⟩, ⟨4, 4, 32⟩] bowl 0
      ⟨1 / 10, 100, 0⟩ =
      geneticStep bowl.func bowl.minX bowl.maxX bowl.minY bowl.maxY
        (1 / 10) 0 [⟨0, 0, 0⟩, ⟨2, 2, 8⟩, ⟨4, 4, 32⟩]
        (fun _ => ⟨7 / 10, 7 / 10, 1, 0, 0⟩) := by
    simp [stepSimulation]
  rw [heq]
  norm_num [geneticStep, geneticChild, hidx, sortByValue, randomRange, clamp,
    bowl, List.insertionSort, List.orderedInsert]
  decide

/-- C6 amended: each parent index is floor(r * (n / 2)) for a uniform
draw r ∈ [0, 1), hence always a valid index strictly below the rational
bound n / 2: at most ceil(n/2) − 1. For even n this is exactly the better
half, indices 0 to n/2 − 1; for odd n it additionally reaches the middle
index floor(n/2). -/
theorem genetic_parent_pool (r : ℚ) (n : ℕ)
    (h0 : 0 ≤ r) (h1 : r < 1) (hn : 1 ≤ n) :
    geneticParentIdx r n < (n + 1) / 2
    ∧ geneticParentIdx r n < n
    ∧ (n % 2 = 0 → geneticParentIdx r n < n / 2) := by
  have hcast : (1 : ℚ) ≤ (n : ℚ) := by exact_mod_cast hn
  have hpos : (0 : ℚ) < (n : ℚ) / 2 := by linarith
  have hlt : r * ((n : ℚ) / 2) < (n : ℚ) / 2 := by nlinarith
  have hfl : (⌊r * ((n : ℚ) / 2)⌋ : ℚ) ≤ r * ((n : ℚ) / 2) := Int.floor_le _
  have h2 : ((2 * ⌊r * ((n : ℚ) / 2)⌋ : ℤ) : ℚ) < ((n : ℤ) : ℚ) := by
    push_cast
    linarith
  have h3 : (2 * ⌊r * ((n : ℚ) / 2)⌋ : ℤ) < (n : ℤ) := by exact_mod_cast h2
  have h4 : (0 : ℤ) ≤ ⌊r * ((n : ℚ) / 2)⌋ :=
    Int.floor_nonneg.mpr (by positivity)
  unfold geneticParentIdx
  omega

/-- C6 amended witness: for n = 4 and r = 7/10 the parent index is 1,
inside the better half. -/
theorem genetic_parent_pool_witness :
    geneticParentIdx (7 / 10) 4 < (4 + 1) / 2
    ∧ geneticParentIdx (7 / 10) 4 < 4
    ∧ (4 % 2 = 0 → geneticParentIdx (7 / 10) 4 < 4 / 2) :=
  genetic_parent_pool (7 / 10) 4 (by norm_num) (by norm_num) (by norm_num)

/-! ## C9 — the driver performs no configuration validation -/

/-- C9 counterexample: an invalid configuration (negative stepSize and
negative maxIterations) is not rejected: resetSimulation initializes a
full simulation state from it and toggleSimulation then starts the run. -/
theorem reset_accepts_invalid_config :
    resetSimulation
        { algo := "HILL_CLIMBING", learningRate := -1, temperature := none,
          populationSize := none, mutationRate := none, maxIterations := -3 }
        bowl (fun _ => (1 / 2, 1 / 2)) =
      some { running := false, iteration := 0, bestPoint := some ⟨0, 0, 0⟩,
             history := [(0, 0)], agents := [⟨0, 0, 0⟩],
             trails := [[⟨0, 0, 0⟩]] }
    ∧ (toggleSimulation
        { running := false, iteration := 0, bestPoint := some ⟨0, 0, 0⟩,
          history := [(0, 0)], agents := [⟨0, 0, 0⟩],
          trails := [[⟨0, 0, 0⟩]] }).running = true := by
  constructor
  · norm_num [resetSimulation, resetAgent, resetCount, jsOrZ, sortByValue,
      bowl, List.insertionSort, List.orderedInsert]
  · rfl

/-- C9 amended: reset never validates the configuration: whenever the
resolved agent count is at least one (which holds for every non-genetic
configuration and for genetic ones with a usable populationSize), reset
succeeds regardless of stepSize, temperature, mutationRate or
maxIterations, producing an idle state of that many agents which toggle
then sets running. -/
theorem reset_no_validation (cfg : OptimizationConfig) (land : Landscape)
    (draws : ℕ → ℚ × ℚ) (h : 1 ≤ (resetCount cfg).toNat) :
    ∃ s, resetSimulation cfg land draws = some s ∧ s.running = false ∧
      s.agents.length = (resetCount cfg).toNat ∧
      (toggleSimulation s).running = true := by
  unfold resetSimulation
  have hlen : (sortByValue ((List.range (resetCount cfg).toNat).map
      (resetAgent land draws))).length = (resetCount cfg).toNat := by
    rw [length_sortByValue, List.length_map, List.length_range]
  rcases hs : sortByValue ((List.range (resetCount cfg).toNat).map
      (resetAgent land draws)) with _ | ⟨best, rest⟩
  · rw [hs] at hlen
    simp at hlen
    omega
  · rw [hs] at hlen
    refine ⟨_, rfl, rfl, ?_, rfl⟩
    simpa using hlen

/-- C9 witness: the amended theorem applied to the invalid configuration
of the counterexample. -/
theorem reset_no_validation_witness :
    ∃ s, resetSimulation
        { algo := "HILL_CLIMBING", learningRate := -1, temperature := none,
          populationSize := none, mutationRate := none, maxIterations := -3 }
        bowl (fun _ => (1 / 2, 1 / 2)) = some s ∧ s.running = false ∧
      s.agents.length =
        (resetCount
          { algo := "HILL_CLIMBING", learningRate := -1, temperature := none,
            populationSize := none, mutationRate := none,
            maxIterations := -3 }).toNat ∧
      (toggleSimulation s).running = true :=
  reset_no_validation
    { algo := "HILL_CLIMBING", learningRate := -1, temperature := none,
      populationSize := none, mutationRate := none, maxIterations := -3 }
    bowl (fun _ => (1 / 2, 1 / 2)) (by decide)

end CLM
